import Mathlib

/-!
Verification of `src/src/geometry/cgal/cgalutils.cc` (OpenSCAD CGAL utilities).

The C++ code is embedded shallowly over exact rationals (`ℚ` stands for the
`double` / CGAL field-number coordinates).  External CGAL/GeometryUtils entry
points (convex hull, polyhedron construction, constrained triangulation,
unconnected-edge counting) are parameters of the embedding, since their
sources are not part of this repository.  The square root and the
`cos_degrees(.1)` constant used by `is_approximately_convex` are likewise kept
abstract in an `FPModel` parameter: every theorem below holds for any choice
of these numeric primitives.
-/

namespace CGALUtils

attribute [local semireducible] Rat.add Rat.sub Rat.mul Rat.inv

/-- 3D point/vector with exact coordinates (models `Vector3d` / `Vector3f`). -/
abbrev Q3 := ℚ × ℚ × ℚ

def q0 : Q3 := (0, 0, 0)

/-- Component access on a 3-vector; out-of-range components read as 0. -/
def coord3 (v : Q3) (i : ℕ) : ℚ :=
  if i = 0 then v.1 else if i = 1 then v.2.1 else if i = 2 then v.2.2 else 0

/-- Component access on an `Eigen::Matrix<bool,3,1>` value. -/
def coordB (v : Bool × Bool × Bool) (i : ℕ) : Bool :=
  if i = 0 then v.1 else if i = 1 then v.2.1 else if i = 2 then v.2.2 else false

def dotQ (u v : Q3) : ℚ := u.1 * v.1 + u.2.1 * v.2.1 + u.2.2 * v.2.2

/-- Componentwise division of a vector by a scalar (`Vector_3 / NT`). -/
def divQ3 (u : Q3) (s : ℚ) : Q3 := (u.1 / s, u.2.1 / s, u.2.2 / s)

/-! ## computeResizeTransform (cgalutils.cc lines 449-492) -/

/-- Extent of the iso-cuboid bounding box on axis `i`
(`bb.max_coord(i) - bb.min_coord(i)`). -/
def bboxSize (bb : Q3 × Q3) (i : ℕ) : ℚ := coord3 bb.2 i - coord3 bb.1 i

/-- First loop of `computeResizeTransform`: per-axis explicit scale factors and
the running `newsizemax_index`.  `none` models the early
`return Transform3d::Identity()` (with its warning) taken when an axis has a
non-zero target but zero bounding-box extent. -/
def loop1 (ns ext : ℕ → ℚ) : List ℕ → (ℕ → ℚ) → ℕ → Option ((ℕ → ℚ) × ℕ)
  | [], scale, idx => some (scale, idx)
  | i :: rest, scale, idx =>
    if ns i ≠ 0 then
      if ext i = 0 then none
      else
        loop1 ns ext rest (fun k => if k = i then ns i / ext i else scale k)
          (if ns idx < ns i then i else idx)
    else loop1 ns ext rest scale idx

/-- The `newsizemax_index` evolution of the first loop in isolation. -/
def argmaxFrom (ns : ℕ → ℚ) : List ℕ → ℕ → ℕ
  | [], idx => idx
  | i :: rest, idx =>
    argmaxFrom ns rest (if ns i ≠ 0 then (if ns idx < ns i then i else idx) else idx)

/-- Scale vector computed by `computeResizeTransform` (`none` = early return). -/
def resizeScale (bb : Q3 × Q3) (dimension : ℕ) (newsize : Q3)
    (autosize : ℕ → Bool) : Option (ℕ → ℚ) :=
  let ns := coord3 newsize
  let ext := bboxSize bb
  match loop1 ns ext (List.range dimension) (fun _ => 1) 0 with
  | none => none
  | some (scale, idx) =>
    let autoscale := if ns idx ≠ 0 then ns idx / ext idx else 1
    some fun k => if k < dimension ∧ autosize k = true ∧ ns k = 0 then autoscale else scale k

/-- The 4x4 matrix assembled at the end of `computeResizeTransform`:
`diag(scale[0], scale[1], scale[2], 1)`. -/
def scaleMatrix (s : ℕ → ℚ) : Matrix (Fin 4) (Fin 4) ℚ :=
  Matrix.of fun r c => if r = c then (if (r : ℕ) < 3 then s (r : ℕ) else 1) else 0

/-- `computeResizeTransform`.  The boolean records whether the warning branch
(`Resize in direction normal to flat object...`) was taken; in that case the
function returns the identity transform. -/
def computeResizeTransform (bb : Q3 × Q3) (dimension : ℕ) (newsize : Q3)
    (autosize : Bool × Bool × Bool) : Bool × Matrix (Fin 4) (Fin 4) ℚ :=
  match resizeScale bb dimension newsize (coordB autosize) with
  | none => (true, scaleMatrix fun _ => 1)
  | some s => (false, scaleMatrix s)

/-! ## is_approximately_convex (cgalutils.cc lines 161-242) -/

/-- Abstract numeric primitives used by the dihedral-angle test: the machine
`sqrt` and the `cos_degrees(.1)` threshold. -/
structure FPModel where
  sqrtQ : ℚ → ℚ
  cosThreshold : ℚ

/-- Directed edge: ordered pair of vertex positions (the `Edge` typedef). -/
abbrev Edge := Q3 × Q3

/-- The `Edge_to_facet_map`.  The source uses `std::map` ordered by
`VecPairCompare`; only `count`, `find` and guarded insertion are used, so an
association list is an equivalent model. -/
abbrev EdgeMap := List (Edge × ℕ)

def emLookup : EdgeMap → Edge → Option ℕ
  | [], _ => none
  | (e', v) :: rest, e => if e' = e then some v else emLookup rest e

/-- Plane equation `a x + b y + c z + d = 0` (CGAL `Plane_3`). -/
structure Plane3 where
  a : ℚ
  b : ℚ
  c : ℚ
  d : ℚ
deriving DecidableEq

/-- Default-constructed plane, pushed for faces with fewer than 3 vertices.
Its coefficients are indeterminate in the source; they are never read. -/
def planeDefault : Plane3 := ⟨0, 0, 0, 0⟩

/-- One step of `CGAL::normal_vector_newell_3`. -/
def newellStep (p q n : Q3) : Q3 :=
  (n.1 + (p.2.1 - q.2.1) * (p.2.2 + q.2.2),
   n.2.1 + (p.2.2 - q.2.2) * (p.1 + q.1),
   n.2.2 + (p.1 - q.1) * (p.2.1 + q.2.1))

/-- Newell normal of a vertex loop (noise-tolerant normal estimator). -/
def newellNormal (v : List Q3) : Q3 :=
  (List.range v.length).foldl
    (fun n j => newellStep (v.getD j q0) (v.getD ((j + 1) % v.length) q0) n) q0

/-- CGAL `Plane(point, normal)`. -/
def planeThrough (p n : Q3) : Plane3 := ⟨n.1, n.2.1, n.2.2, -(dotQ n p)⟩

/-- Plane of a face as computed in the first loop: Newell normal anchored at
the first vertex (`Plane(v[0], normal)`), for faces with at least 3 vertices. -/
def facetPlane (f : List Q3) : Plane3 :=
  if 3 ≤ f.length then planeThrough (f.getD 0 q0) (newellNormal f) else planeDefault

def facetPlanes (polys : List (List Q3)) : List Plane3 := polys.map facetPlane

/-- `Plane_3::has_on_positive_side`. -/
def hasOnPositiveSide (pl : Plane3) (p : Q3) : Bool :=
  decide (0 < pl.a * p.1 + pl.b * p.2.1 + pl.c * p.2.2 + pl.d)

/-- `Plane_3::orthogonal_vector`. -/
def orthVec (pl : Plane3) : Q3 := (pl.a, pl.b, pl.c)

/-- The expression `u / sqrt(u*u) * v / sqrt(v*v)` (dot products and scalar
division, shaped exactly as in the source). -/
def cosAngle (G : FPModel) (u v : Q3) : ℚ :=
  dotQ (divQ3 u (G.sqrtQ (dotQ u u))) v / G.sqrtQ (dotQ v v)

/-- The directed edges `(p[j], p[(j+1) % N])` of a face loop. -/
def faceEdges (f : List Q3) : List Edge :=
  (List.range f.length).map fun j => (f.getD j q0, f.getD ((j + 1) % f.length) q0)

/-- Insert the edges of face `i` into the map, failing (early `return false`:
non-manifold) if any directed edge is already present. -/
def insertEdges (i : ℕ) : EdgeMap → List Edge → Option EdgeMap
  | m, [] => some m
  | m, e :: es =>
    if (emLookup m e).isSome then none else insertEdges i ((e, i) :: m) es

/-- First loop of `is_approximately_convex`: build the edge→facet map over all
faces with at least 3 vertices (the plane computation of the same loop is
`facetPlanes`). -/
def buildMap : List (List Q3) → ℕ → EdgeMap → Option EdgeMap
  | [], _, m => some m
  | f :: rest, i, m =>
    if 3 ≤ f.length then
      match insertEdges i m (faceEdges f) with
      | none => none
      | some m2 => buildMap rest (i + 1) m2
    else buildMap rest (i + 1) m

/-- Check of one directed edge of face `i` in the second loop: reverse edge
must exist; if the vertex two steps ahead lies strictly on the positive side
of the neighbour's plane, the dihedral cosine must reach the threshold. -/
def edgeOK (G : FPModel) (m : EdgeMap) (planes : List Plane3)
    (f : List Q3) (i j : ℕ) : Bool :=
  let N := f.length
  match emLookup m (f.getD ((j + 1) % N) q0, f.getD j q0) with
  | none => false
  | some g =>
    let p := f.getD ((j + 2) % N) q0
    if hasOnPositiveSide (planes.getD g planeDefault) p then
      decide (G.cosThreshold ≤
        cosAngle G (orthVec (planes.getD g planeDefault))
          (orthVec (planes.getD i planeDefault)))
    else true

def faceOK (G : FPModel) (m : EdgeMap) (planes : List Plane3)
    (f : List Q3) (i : ℕ) : Bool :=
  if f.length < 3 then true
  else (List.range f.length).all fun j => edgeOK G m planes f i j

/-- Second loop of `is_approximately_convex`. -/
def convexChecks (G : FPModel) (m : EdgeMap) (planes : List Plane3)
    (polys : List (List Q3)) : Bool :=
  (List.range polys.length).all fun i => faceOK G m planes (polys.getD i []) i

/-- Edge iteration of one BFS step: look up the reverse of each edge of the
popped face; `none` models the `return false` on a missing reverse edge.
Freshly discovered facets are inserted into the explored set and pushed. -/
def visitEdges (m : EdgeMap) (face : List Q3) :
    List ℕ → List ℕ → List ℕ → Option (List ℕ × List ℕ)
  | [], explored, queue => some (explored, queue)
  | i :: rest, explored, queue =>
    match emLookup m (face.getD ((i + 1) % face.length) q0, face.getD i q0) with
    | none => none
    | some g =>
      if g ∈ explored then visitEdges m face rest explored queue
      else visitEdges m face rest (g :: explored) (queue ++ [g])

/-- The BFS `while` loop.  `some false` is the in-loop `return false` on a
missing reverse edge; the outer `none` is the out-of-bounds access
`ps.polygons[f]` (undefined behaviour in the source); fuel exhaustion (which a
run of the C++ loop never hits) also gives `none`. -/
def bfsLoop (polys : List (List Q3)) (m : EdgeMap) :
    ℕ → List ℕ → List ℕ → Option Bool
  | 0, _, _ => none
  | _ + 1, [], explored => some (decide (explored.length = polys.length))
  | n + 1, f :: rest, explored =>
    match polys[f]? with
    | none => none
    | some face =>
      match visitEdges m face (List.range face.length) explored rest with
      | none => some false
      | some (explored2, queue2) => bfsLoop polys m n queue2 explored2

/-- BFS phase: queue and explored set both start as `{0}`. -/
def bfsPhase (polys : List (List Q3)) (m : EdgeMap) : Option Bool :=
  bfsLoop polys m (polys.length + 1) [0] [0]

/-- `is_approximately_convex`.  `some b` is a normal boolean return; `none` is
the undefined out-of-bounds polygon access in the BFS seed. -/
def is_approximately_convex (G : FPModel) (polys : List (List Q3)) : Option Bool :=
  match buildMap polys 0 [] with
  | none => some false
  | some m =>
    if convexChecks G m (facetPlanes polys) polys then bfsPhase polys m
    else some false

/-- Face `g` is reached from face 0 by following reverse-edge links, as in the
BFS of `is_approximately_convex`. -/
inductive Reaches (polys : List (List Q3)) : ℕ → Prop where
  | zero : Reaches polys 0
  | step {f g : ℕ} {a b : Q3} : Reaches polys f →
      (a, b) ∈ faceEdges (polys.getD f []) →
      (b, a) ∈ faceEdges (polys.getD g []) → Reaches polys g

/-- A numeric model with trivial square root and threshold 1, for concrete
evaluations whose runs never reach the dihedral-angle comparison. -/
def cG0 : FPModel := ⟨fun _ => 1, 1⟩

/-- A doubled triangle: the two opposite orientations of one triangle, a
closed manifold triangulated surface. -/
def doubledTriangle : List (List Q3) :=
  [[((0 : ℚ), (0 : ℚ), (0 : ℚ)), ((1 : ℚ), (0 : ℚ), (0 : ℚ)),
    ((0 : ℚ), (1 : ℚ), (0 : ℚ))],
   [((0 : ℚ), (1 : ℚ), (0 : ℚ)), ((1 : ℚ), (0 : ℚ), (0 : ℚ)),
    ((0 : ℚ), (0 : ℚ), (0 : ℚ))]]

/-! ## createPolySetFromNefPolyhedron3 (cgalutils.cc lines 270-412) -/

/-- One half-facet of the input Nef polyhedron: its mark bit, the mark of its
incident volume, and its boundary cycles (vertex positions met by the
`SHalfedge_around_facet` walk, already converted to mesh precision). -/
structure Halffacet where
  mark : Bool
  volMark : Bool
  cycles : List (List Q3)

def idxLookup : List Q3 → Q3 → ℕ → Option ℕ
  | [], _, _ => none
  | x :: xs, p, k => if x = p then some k else idxLookup xs p (k + 1)

/-- `Reindexer::lookup`: index of the first occurrence, appending if new. -/
def rLookup (arr : List Q3) (p : Q3) : List Q3 × ℕ :=
  match idxLookup arr p 0 with
  | some k => (arr, k)
  | none => (arr ++ [p], arr.length)

/-- Walk one boundary cycle, collecting vertex indices and dropping
consecutive duplicates (`if (currface.empty() || idx != currface.back())`). -/
def collectCycle (arr : List Q3) (pts : List Q3) : List Q3 × List ℕ :=
  pts.foldl
    (fun st p =>
      let r := rLookup st.1 p
      (r.1, if st.2 = [] ∨ st.2.getLast? ≠ some r.2 then st.2 ++ [r.2] else st.2))
    (arr, [])

/-- Drop a closing duplicate (`front == back`). -/
def trimCycle (c : List ℕ) : List ℕ :=
  if c ≠ [] ∧ c.head? = c.getLast? then c.dropLast else c

/-- Process the cycles of one half-facet, culling cycles that degenerate below
3 vertices. -/
def buildFaces (arr : List Q3) (cycles : List (List Q3)) :
    List Q3 × List (List ℕ) :=
  cycles.foldl
    (fun st pts =>
      let r := collectCycle st.1 pts
      let c2 := trimCycle r.2
      (r.1, if c2.length < 3 then st.2 else st.2 ++ [c2]))
    (arr, [])

/-- Cycle collection for one half-facet.  The source walks cycles only when
`!hfaceti->incident_volume()->mark()`. -/
def processHalffacet (arr : List Q3) (hf : Halffacet) : List Q3 × List (List ℕ) :=
  if hf.volMark = false then buildFaces arr hf.cycles else (arr, [])

/-- Step 1 of `createPolySetFromNefPolyhedron3`: the vertex array, the
`polygons` list and the parallel `markedPolygons` list (the entry pushed for a
half-facet is `!hfaceti->mark()`; empty face groups are culled from both). -/
def buildPolygons : List Halffacet → List Q3 →
    List Q3 × (List (List (List ℕ)) × List Bool)
  | [], arr => (arr, ([], []))
  | hf :: rest, arr =>
    let pr := processHalffacet arr hf
    let r := buildPolygons rest pr.1
    if pr.2 = [] then r else (r.1, (pr.2 :: r.2.1, (!hf.mark) :: r.2.2))

/-- Same pipeline keeping each retained face group paired with its source
half-facet (used to state mark provenance). -/
def retainedGroups : List Halffacet → List Q3 →
    List Q3 × List (Halffacet × List (List ℕ))
  | [], arr => (arr, [])
  | hf :: rest, arr =>
    let pr := processHalffacet arr hf
    let r := retainedGroups rest pr.1
    if pr.2 = [] then r else (r.1, (hf, pr.2) :: r.2)

/-- The external constrained triangulator
`GeometryUtils::tessellatePolygonWithHoles`: from the vertex array and a
face-with-holes, an error flag and a triangle list. -/
abbrev Tess := List Q3 → List (List ℕ) → Bool × List (ℕ × ℕ × ℕ)

/-- Step 3: triangulate each face group; a group whose triangulation fails
contributes nothing, successful groups contribute their triangles tagged with
`markedPolygons.at(polygonIndex)`. -/
def triangulateAll (tess : Tess) (verts : List Q3) :
    List (List (List ℕ)) → ℕ → List Bool → List (Bool × (ℕ × ℕ × ℕ))
  | [], _, _ => []
  | faces :: rest, idx, mp =>
    let r := tess verts faces
    (if r.1 then [] else r.2.map fun t => (mp.getD idx false, t)) ++
      triangulateAll tess verts rest (idx + 1) mp

/-- Final coordinates of one indexed triangle. -/
def triCoords (verts : List Q3) (t : ℕ × ℕ × ℕ) : Q3 × Q3 × Q3 :=
  (verts.getD t.1 q0, verts.getD t.2.1 q0, verts.getD t.2.2 q0)

/-- `createPolySetFromNefPolyhedron3`: produces the output triangle list (mark
flag and vertex coordinates per triangle) and the returned error flag.  The
returned flag is the outer `bool err = false` of line 281; the per-face
`auto err` of line 372 is a distinct local binding. -/
def createPolySetFromNefPolyhedron3 (tess : Tess) (hfs : List Halffacet) :
    List (Bool × (Q3 × Q3 × Q3)) × Bool :=
  let err := false
  let bp := buildPolygons hfs []
  let tris := triangulateAll tess bp.1 bp.2.1 0 bp.2.2
  (tris.map fun bt => (bt.1, triCoords bp.1 bt.2), err)

/-- Triangle production over source-tagged face groups: every triangle of a
group carries the negation of the source half-facet's mark. -/
def triangulateGroups (tess : Tess) (verts : List Q3) :
    List (Halffacet × List (List ℕ)) → List (Bool × (ℕ × ℕ × ℕ))
  | [] => []
  | g :: rest =>
    let r := tess verts g.2
    (if r.1 then [] else r.2.map fun t => (!g.1.mark, t)) ++
      triangulateGroups tess verts rest

/-- A half-facet with mark bit `true` (incident volume unmarked, one
triangular cycle), used to exhibit the mark flip. -/
def hfC2 : Halffacet :=
  ⟨true, false, [[((0 : ℚ), (0 : ℚ), (0 : ℚ)), ((1 : ℚ), (0 : ℚ), (0 : ℚ)),
    ((0 : ℚ), (1 : ℚ), (0 : ℚ))]]⟩

/-- A tessellator that triangulates the face group successfully into one
triangle. -/
def tessC2 : Tess := fun _ _ => (false, [(0, 1, 2)])

/-! ## createNefPolyhedronFromPolySet (cgalutils.cc lines 38-106) -/

/-- Substring search (`std::string::find(pat) != npos`). -/
def charsBeginWith : List Char → List Char → Bool
  | [], _ => true
  | _ :: _, [] => false
  | a :: as, b :: bs => a == b && charsBeginWith as bs

def charsContain (pat : List Char) : List Char → Bool
  | [] => charsBeginWith pat []
  | c :: rest => charsBeginWith pat (c :: rest) || charsContain pat rest

def containsStr (s pat : String) : Bool := charsContain pat.toList s.toList

/-- The message patterns of lines 84-87 distinguishing the planarity/precision
assertion failure. -/
def isPlaneError (e : String) : Bool :=
  (containsStr e "Plane_constructor" && containsStr e "has_on") ||
    containsStr e "ss_plane.has_on(sv_prev->point())" ||
    containsStr e "ss_circle.has_on(sp)"

def msgNotClosed : String :=
  "The given mesh is not closed! Unable to convert to CGAL_Nef_Polyhedron."

def msgInvalid : String :=
  "The given mesh is invalid! Unable to convert to CGAL_Nef_Polyhedron."

def msgRetry : String := "PolySet has nonplanar faces. Attempting alternate construction"

def msgCgalError (e : String) : String :=
  "CGAL error in CGAL_Nef_polyhedron3(): " ++ e

def msgAltFailed (e : String) : String :=
  "Alternate construction failed. CGAL error in CGAL_Nef_polyhedron3(): " ++ e

/-- External collaborators of `createNefPolyhedronFromPolySet`.  `Except`
results model the CGAL assertion exceptions (carrying `e.what()`). -/
structure NefWorld (PS Poly Nef Pt : Type) where
  isEmpty : PS → Bool
  quantize : PS → PS × List Pt
  tessellate_faces : PS → PS
  is_convex : PS → Bool
  convex_hull_nef : List Pt → Nef
  createPolyhedronFromPolySet : PS → Except String (Bool × Poly)
  is_closed : Poly → Bool
  is_valid : Poly → Bool
  mkNefFromPolyhedron : Poly → Except String Nef

/-- Body of the first `try` block (lines 70-81): build the polyhedron from the
quantized polyset, require it closed and valid, then construct the Nef.
A normal completion carries the (possibly null) `N` and the error logs. -/
def firstConstruction {PS Poly Nef Pt : Type} (W : NefWorld PS Poly Nef Pt)
    (psq : PS) : Except String (Option Nef × List String) :=
  match W.createPolyhedronFromPolySet psq with
  | Except.error e => Except.error e
  | Except.ok (err, P) =>
    if err then Except.ok (none, [])
    else if W.is_closed P = false then Except.ok (none, [msgNotClosed])
    else if W.is_valid P = false then Except.ok (none, [msgInvalid])
    else
      match W.mkNefFromPolyhedron P with
      | Except.error e => Except.error e
      | Except.ok n => Except.ok (some n, [])

/-- Body of the retry `try` block (lines 94-101): rebuild from the fully
tessellated copy; no closed/valid gating. -/
def secondConstruction {PS Poly Nef Pt : Type} (W : NefWorld PS Poly Nef Pt)
    (ps_tri : PS) : Except String (Option Nef) :=
  match W.createPolyhedronFromPolySet ps_tri with
  | Except.error e => Except.error e
  | Except.ok (err, P) =>
    if err then Except.ok none
    else
      match W.mkNefFromPolyhedron P with
      | Except.error e => Except.error e
      | Except.ok n => Except.ok (some n)

/-- `createNefPolyhedronFromPolySet`: result is the (possibly empty) Nef
wrapper together with the error/warning log messages emitted. -/
def createNefPolyhedronFromPolySet {PS Poly Nef Pt : Type}
    (W : NefWorld PS Poly Nef Pt) (ps : PS) : Option Nef × List String :=
  if W.isEmpty ps then (none, [])
  else
    let q := W.quantize ps
    let ps_tri := W.tessellate_faces q.1
    if W.is_convex ps_tri then
      if q.2.length ≤ 3 then (none, [])
      else (some (W.convex_hull_nef q.2), [])
    else
      match firstConstruction W q.1 with
      | Except.ok r => r
      | Except.error e =>
        if isPlaneError e then
          match secondConstruction W ps_tri with
          | Except.ok n2 => (n2, [msgRetry])
          | Except.error e2 => (none, [msgRetry, msgAltFailed e2])
        else (none, [msgCgalError e])

/-- A concrete instantiation of the external-library interface, used to
evaluate the control-flow theorems on concrete inputs. -/
def cWorld : NefWorld ℕ ℕ ℕ ℕ where
  isEmpty := fun n => n == 0
  quantize := fun n => (n, [])
  tessellate_faces := fun n => n
  is_convex := fun _ => false
  convex_hull_nef := fun _ => 0
  createPolyhedronFromPolySet := fun _ => Except.error "ss_circle.has_on(sp)"
  is_closed := fun _ => true
  is_valid := fun _ => true
  mkNefFromPolyhedron := fun n => Except.ok n

/-! ## Theorems: resize transform (C7) -/

theorem loop1_none_of_flat {ns ext : ℕ → ℚ} :
    ∀ (l : List ℕ) (scale : ℕ → ℚ) (idx : ℕ),
      (∃ i ∈ l, ns i ≠ 0 ∧ ext i = 0) → loop1 ns ext l scale idx = none := by
  intro l
  induction l with
  | nil => intro scale idx h; obtain ⟨i, hi, _⟩ := h; cases hi
  | cons a rest ih =>
    intro scale idx h
    obtain ⟨i, hi, hns, hext⟩ := h
    by_cases ha : ns a ≠ 0
    · by_cases hz : ext a = 0
      · simp [loop1, ha, hz]
      · have hia : i ≠ a := by rintro rfl; exact hz hext
        have : i ∈ rest := by
          rcases List.mem_cons.mp hi with h0 | h0
          · exact absurd h0 hia
          · exact h0
        simp only [loop1, if_pos ha, if_neg hz]
        exact ih _ _ ⟨i, this, hns, hext⟩
    · have hia : i ≠ a := by rintro rfl; exact ha hns
      have : i ∈ rest := by
        rcases List.mem_cons.mp hi with h0 | h0
        · exact absurd h0 hia
        · exact h0
      simp only [loop1, if_neg ha]
      exact ih _ _ ⟨i, this, hns, hext⟩

/-- C7: if some active axis (index below the dimension) has a non-zero target
size while the bounding box has zero extent on that axis, then
`computeResizeTransform` takes the warning branch and returns the identity
transform for the entire call, applying no scaling on any axis. -/
theorem computeResizeTransform_zero_extent (bb : Q3 × Q3) (dim : ℕ) (ns : Q3)
    (as : Bool × Bool × Bool)
    (h : ∃ i, i < dim ∧ coord3 ns i ≠ 0 ∧ bboxSize bb i = 0) :
    computeResizeTransform bb dim ns as = (true, scaleMatrix fun _ => 1) := by
  obtain ⟨i, hi, hns, hext⟩ := h
  have hloop : loop1 (coord3 ns) (bboxSize bb) (List.range dim) (fun _ => 1) 0 = none :=
    loop1_none_of_flat _ _ _ ⟨i, List.mem_range.mpr hi, hns, hext⟩
  simp [computeResizeTransform, resizeScale, hloop]

theorem computeResizeTransform_zero_extent_witness :
    (∃ i, i < 3 ∧ coord3 ((2 : ℚ), (0 : ℚ), (0 : ℚ)) i ≠ 0 ∧
      bboxSize (((0 : ℚ), (0 : ℚ), (0 : ℚ)), ((0 : ℚ), (1 : ℚ), (1 : ℚ))) i = 0) ∧
    computeResizeTransform (((0 : ℚ), (0 : ℚ), (0 : ℚ)), ((0 : ℚ), (1 : ℚ), (1 : ℚ)))
      3 ((2 : ℚ), (0 : ℚ), (0 : ℚ)) (true, true, true) = (true, scaleMatrix fun _ => 1) :=
  ⟨⟨0, by decide, by decide, by decide⟩,
    computeResizeTransform_zero_extent _ _ _ _ ⟨0, by decide, by decide, by decide⟩⟩

/-! ## Theorems: autosize tracking (C8) -/

/-- C8 (counterexample): with bounding box `[0,1]^3`, target sizes
`(0,-1,0)` and autosize `(false,false,true)`, axis 1 is the only axis with a
non-zero (hence largest) requested target and its scale factor is `-1`, yet
the active autosize axis 2 receives scale `1`, not `-1`: the tracked index
never moves to an axis whose target is negative. -/
theorem computeResizeTransform_negative_target_cex :
    coord3 ((0 : ℚ), (-1 : ℚ), (0 : ℚ)) 1 ≠ 0 ∧
    coord3 ((0 : ℚ), (-1 : ℚ), (0 : ℚ)) 0 = 0 ∧
    coord3 ((0 : ℚ), (-1 : ℚ), (0 : ℚ)) 2 = 0 ∧
    coordB (false, false, true) 2 = true ∧
    coord3 ((0 : ℚ), (-1 : ℚ), (0 : ℚ)) 1 /
      bboxSize (((0 : ℚ), (0 : ℚ), (0 : ℚ)), ((1 : ℚ), (1 : ℚ), (1 : ℚ))) 1 = -1 ∧
    (computeResizeTransform (((0 : ℚ), (0 : ℚ), (0 : ℚ)), ((1 : ℚ), (1 : ℚ), (1 : ℚ))) 3
      ((0 : ℚ), (-1 : ℚ), (0 : ℚ)) (false, false, true)).2 2 2 = 1 ∧
    (1 : ℚ) ≠ -1 := by
  decide

theorem loop1_idx_eq {ns ext : ℕ → ℚ} :
    ∀ (l : List ℕ) (scale : ℕ → ℚ) (idx : ℕ) (r : (ℕ → ℚ) × ℕ),
      loop1 ns ext l scale idx = some r → r.2 = argmaxFrom ns l idx := by
  intro l
  induction l with
  | nil =>
    intro scale idx r h
    simp only [loop1, Option.some_inj] at h
    rw [← h]
    rfl
  | cons i rest ih =>
    intro scale idx r h
    by_cases hi : ns i ≠ 0
    · by_cases hz : ext i = 0
      · simp [loop1, hi, hz] at h
      · simp only [loop1, if_pos hi, if_neg hz] at h
        simpa [argmaxFrom, hi] using ih _ _ _ h
    · simp only [loop1, if_neg hi] at h
      simpa [argmaxFrom, hi] using ih _ _ _ h

theorem loop1_scale_untouched {ns ext : ℕ → ℚ} :
    ∀ (l : List ℕ) (scale : ℕ → ℚ) (idx : ℕ) (r : (ℕ → ℚ) × ℕ),
      loop1 ns ext l scale idx = some r →
      ∀ k, ns k = 0 → r.1 k = scale k := by
  intro l
  induction l with
  | nil =>
    intro scale idx r h k hk
    simp only [loop1, Option.some_inj] at h
    rw [← h]
  | cons i rest ih =>
    intro scale idx r h k hk
    by_cases hi : ns i ≠ 0
    · by_cases hz : ext i = 0
      · simp [loop1, hi, hz] at h
      · simp only [loop1, if_pos hi, if_neg hz] at h
        have hki : k ≠ i := by rintro rfl; exact hi hk
        rw [ih _ _ _ h k hk]
        simp [hki]
    · simp only [loop1, if_neg hi] at h
      exact ih _ _ _ h k hk

theorem loop1_isSome {ns ext : ℕ → ℚ} :
    ∀ (l : List ℕ) (scale : ℕ → ℚ) (idx : ℕ),
      (∀ i ∈ l, ns i ≠ 0 → ext i ≠ 0) →
      ∃ r, loop1 ns ext l scale idx = some r := by
  intro l
  induction l with
  | nil => intro scale idx _; exact ⟨_, rfl⟩
  | cons i rest ih =>
    intro scale idx h
    by_cases hi : ns i ≠ 0
    · have hz : ext i ≠ 0 := h i (List.mem_cons_self i rest) hi
      simp only [loop1, if_pos hi, if_neg hz]
      exact ih _ _ fun j hj => h j (List.mem_cons_of_mem i hj)
    · simp only [loop1, if_neg hi]
      exact ih _ _ fun j hj => h j (List.mem_cons_of_mem i hj)

theorem argmaxFrom_append (ns : ℕ → ℚ) :
    ∀ (l1 l2 : List ℕ) (idx : ℕ),
      argmaxFrom ns (l1 ++ l2) idx = argmaxFrom ns l2 (argmaxFrom ns l1 idx) := by
  intro l1
  induction l1 with
  | nil => intro l2 idx; rfl
  | cons i rest ih =>
    intro l2 idx
    simp only [List.cons_append, argmaxFrom]
    exact ih l2 _

theorem argmax_spec (ns : ℕ → ℚ) (hnn : ∀ j, 0 ≤ ns j) :
    ∀ dim : ℕ,
      (argmaxFrom ns (List.range dim) 0 = 0 ∨ argmaxFrom ns (List.range dim) 0 < dim) ∧
      (∀ j, j < dim → ns j ≤ ns (argmaxFrom ns (List.range dim) 0)) ∧
      (∀ j, j < argmaxFrom ns (List.range dim) 0 →
        ns j < ns (argmaxFrom ns (List.range dim) 0)) := by
  intro dim
  induction dim with
  | zero =>
    refine ⟨Or.inl rfl, fun j hj => absurd hj (Nat.not_lt_zero j), fun j hj => ?_⟩
    simp [List.range_zero, argmaxFrom] at hj
  | succ d ih =>
    obtain ⟨ih1, ih2, ih3⟩ := ih
    have hstep : argmaxFrom ns (List.range (d + 1)) 0 =
        argmaxFrom ns [d] (argmaxFrom ns (List.range d) 0) := by
      rw [List.range_succ, argmaxFrom_append]
    set a := argmaxFrom ns (List.range d) 0 with ha
    by_cases hd : ns d ≠ 0 ∧ ns a < ns d
    · have hnew : argmaxFrom ns (List.range (d + 1)) 0 = d := by
        rw [hstep]; simp [argmaxFrom, hd.1, hd.2]
      refine ⟨Or.inr (by omega), ?_, ?_⟩
      · intro j hj
        rw [hnew]
        rcases Nat.lt_succ_iff_lt_or_eq.mp hj with hj' | rfl
        · exact le_of_lt (lt_of_le_of_lt (ih2 j hj') hd.2)
        · exact le_refl _
      · intro j hj
        rw [hnew] at hj ⊢
        exact lt_of_le_of_lt (ih2 j hj) hd.2
    · have hold : argmaxFrom ns (List.range (d + 1)) 0 = a := by
        rw [hstep]
        by_cases h1 : ns d ≠ 0
        · have h2 : ¬ ns a < ns d := fun hc => hd ⟨h1, hc⟩
          simp [argmaxFrom, h1, h2]
        · simp [argmaxFrom, h1]
      rw [hold]
      refine ⟨?_, ?_, ih3⟩
      · rcases ih1 with h | h
        · exact Or.inl h
        · exact Or.inr (Nat.lt_succ_of_lt h)
      · intro j hj
        rcases Nat.lt_succ_iff_lt_or_eq.mp hj with hj' | rfl
        · exact ih2 j hj'
        · by_cases h1 : ns j ≠ 0
          · have h2 : ¬ ns a < ns j := fun hc => hd ⟨h1, hc⟩
            exact le_of_not_lt h2
          · push_neg at h1
            rw [h1]; exact hnn a

theorem argmax_eq_first (ns : ℕ → ℚ) (hnn : ∀ j, 0 ≤ ns j) (dim k : ℕ)
    (hk : k < dim) (hne : ns k ≠ 0)
    (hmax : ∀ j, j < dim → ns j ≤ ns k)
    (hfirst : ∀ j, j < k → ns j < ns k) :
    argmaxFrom ns (List.range dim) 0 = k := by
  obtain ⟨h1, h2, h3⟩ := argmax_spec ns hnn dim
  set a := argmaxFrom ns (List.range dim) 0 with ha
  have hadim : a < dim := by
    rcases h1 with h | h
    · omega
    · exact h
  have heq : ns a = ns k := le_antisymm (hmax a hadim) (h2 k hk)
  rcases Nat.lt_trichotomy a k with h | h | h
  · exact absurd (hfirst a h) (by rw [heq]; exact lt_irrefl _)
  · exact h
  · exact absurd (h3 k h) (by rw [heq]; exact lt_irrefl _)

theorem coord3_nonneg (v : Q3) (h : ∀ j, j < 3 → 0 ≤ coord3 v j) :
    ∀ j, 0 ≤ coord3 v j := by
  intro j
  by_cases hj : j < 3
  · exact h j hj
  · have h0 : j ≠ 0 ∧ j ≠ 1 ∧ j ≠ 2 := by omega
    simp [coord3, h0.1, h0.2.1, h0.2.2]

theorem scaleMatrix_offdiag (s : ℕ → ℚ) (r c : Fin 4) (h : r ≠ c) :
    scaleMatrix s r c = 0 := by
  simp [scaleMatrix, h]

theorem scaleMatrix_corner (s : ℕ → ℚ) : scaleMatrix s 3 3 = 1 := rfl

/-- C8 (amended): the result of `computeResizeTransform` is always a
diagonal, shear-free, translation-free 4x4 scale matrix; under nonnegative
target sizes and non-degenerate extents on explicitly-targeted axes, every
active autosize axis with zero target receives scale 1 when no axis has a
non-zero target, and otherwise the scale factor of the *first* axis attaining
the largest target size; in particular the spec example
(bbox `[0,1]^3`, target `(2,0,0)`, autosize `(false,true,true)`, dims 3)
yields the uniform scale `(2,2,2)`. -/
theorem computeResizeTransform_autosize (bb : Q3 × Q3) (dim : ℕ) (ns : Q3)
    (as : Bool × Bool × Bool)
    (hnn : ∀ j, j < 3 → 0 ≤ coord3 ns j)
    (hext : ∀ i, i < dim → coord3 ns i ≠ 0 → bboxSize bb i ≠ 0) :
    (∀ r c : Fin 4, r ≠ c → (computeResizeTransform bb dim ns as).2 r c = 0) ∧
    ((computeResizeTransform bb dim ns as).2 3 3 = 1) ∧
    (∃ s, resizeScale bb dim ns (coordB as) = some s) ∧
    (∀ s, resizeScale bb dim ns (coordB as) = some s →
      ∀ i, i < dim → coordB as i = true → coord3 ns i = 0 →
        ((∀ j, j < dim → coord3 ns j = 0) → s i = 1) ∧
        (∀ k, k < dim → coord3 ns k ≠ 0 →
          (∀ j, j < dim → coord3 ns j ≤ coord3 ns k) →
          (∀ j, j < k → coord3 ns j < coord3 ns k) →
          s i = coord3 ns k / bboxSize bb k)) ∧
    computeResizeTransform (((0 : ℚ), (0 : ℚ), (0 : ℚ)), ((1 : ℚ), (1 : ℚ), (1 : ℚ))) 3
      ((2 : ℚ), (0 : ℚ), (0 : ℚ)) (false, true, true) =
      (false, scaleMatrix fun _ => 2) := by
  have hnn' : ∀ j, 0 ≤ coord3 ns j := coord3_nonneg ns hnn
  refine ⟨?_, ?_, ?_, ?_, by decide⟩
  · intro r c hrc
    cases hmatch : resizeScale bb dim ns (coordB as) <;>
      simp [computeResizeTransform, hmatch, scaleMatrix_offdiag _ _ _ hrc]
  · cases hmatch : resizeScale bb dim ns (coordB as) <;>
      simp [computeResizeTransform, hmatch, scaleMatrix_corner]
  · cases hr2 : resizeScale bb dim ns (coordB as) with
    | none =>
      exfalso
      obtain ⟨r, hr⟩ := loop1_isSome (List.range dim) (fun _ => 1) 0
        (fun i hi hne => hext i (List.mem_range.mp hi) hne)
      simp [resizeScale, hr] at hr2
    | some s => exact ⟨s, rfl⟩
  · intro s hs i hi hai hni
    cases hloop : loop1 (coord3 ns) (bboxSize bb) (List.range dim) (fun _ => 1) 0 with
    | none => simp [resizeScale, hloop] at hs
    | some pr =>
      have hs' : s = fun k =>
          if k < dim ∧ coordB as k = true ∧ coord3 ns k = 0 then
            (if coord3 ns pr.2 ≠ 0 then coord3 ns pr.2 / bboxSize bb pr.2 else 1)
          else pr.1 k := by
        simp only [resizeScale, hloop, Option.some_inj] at hs
        rw [← hs]
      have hsi : s i =
          (if coord3 ns pr.2 ≠ 0 then coord3 ns pr.2 / bboxSize bb pr.2 else 1) := by
        rw [hs']
        simp [hi, hai, hni]
      have hidx : pr.2 = argmaxFrom (coord3 ns) (List.range dim) 0 :=
        loop1_idx_eq _ _ _ _ hloop
      constructor
      · intro hall
        have hz : coord3 ns pr.2 = 0 := by
          rw [hidx]
          obtain ⟨h1, _, _⟩ := argmax_spec (coord3 ns) hnn' dim
          rcases h1 with h | h
          · rw [h]; exact hall 0 (by omega)
          · exact hall _ h
        rw [hsi, if_neg (by rw [hz]; exact fun hc => hc rfl)]
      · intro k hk hkne hkmax hkfirst
        have hik : pr.2 = k := by
          rw [hidx]
          exact argmax_eq_first (coord3 ns) hnn' dim k hk hkne hkmax hkfirst
        rw [hsi, hik, if_pos hkne]

theorem computeResizeTransform_autosize_witness :
    (∀ j, j < 3 → 0 ≤ coord3 ((2 : ℚ), (0 : ℚ), (0 : ℚ)) j) ∧
    (∀ i, i < 3 → coord3 ((2 : ℚ), (0 : ℚ), (0 : ℚ)) i ≠ 0 →
      bboxSize (((0 : ℚ), (0 : ℚ), (0 : ℚ)), ((1 : ℚ), (1 : ℚ), (1 : ℚ))) i ≠ 0) ∧
    computeResizeTransform (((0 : ℚ), (0 : ℚ), (0 : ℚ)), ((1 : ℚ), (1 : ℚ), (1 : ℚ))) 3
      ((2 : ℚ), (0 : ℚ), (0 : ℚ)) (false, true, true) =
      (false, scaleMatrix fun _ => 2) :=
  ⟨by decide, by decide,
    (computeResizeTransform_autosize
      (((0 : ℚ), (0 : ℚ), (0 : ℚ)), ((1 : ℚ), (1 : ℚ), (1 : ℚ))) 3
      ((2 : ℚ), (0 : ℚ), (0 : ℚ)) (false, true, true)
      (by decide) (by decide)).2.2.2.2⟩

/-! ## Theorems: Nef construction control flow (C6) -/

/-- C6: for an empty mesh, `createNefPolyhedronFromPolySet` returns the empty
Nef polyhedron and reports no error (no log messages). -/
theorem createNefPolyhedronFromPolySet_empty {PS Poly Nef Pt : Type}
    (W : NefWorld PS Poly Nef Pt) (ps : PS) (h : W.isEmpty ps = true) :
    createNefPolyhedronFromPolySet W ps = (none, []) := by
  simp [createNefPolyhedronFromPolySet, h]


theorem createNefPolyhedronFromPolySet_empty_witness :
    cWorld.isEmpty 0 = true ∧
    createNefPolyhedronFromPolySet cWorld 0 = (none, []) :=
  ⟨rfl, createNefPolyhedronFromPolySet_empty cWorld 0 rfl⟩

/-! ## Theorems: Nef-to-PolySet error flag (C9) -/

/-- C9: for every tessellator behaviour and every input Nef polyhedron,
`createPolySetFromNefPolyhedron3` returns `false` (no error): the returned
flag is the outer `err` initialized to `false` and never reassigned, because
the per-face triangulation result is bound to a shadowing local. -/
theorem createPolySetFromNefPolyhedron3_err_false (tess : Tess)
    (hfs : List Halffacet) :
    (createPolySetFromNefPolyhedron3 tess hfs).2 = false := rfl

/-! ## Theorems: Nef-to-PolySet per-face drops and mark provenance (C5, C2) -/

theorem triangulateAll_eq (tess : Tess) (verts : List Q3) :
    ∀ (polys : List (List (List ℕ))) (idx : ℕ) (mp : List Bool),
      triangulateAll tess verts polys idx mp =
        (polys.enumFrom idx).flatMap fun p =>
          if (tess verts p.2).1 then []
          else (tess verts p.2).2.map fun t => (mp.getD p.1 false, t) := by
  intro polys
  induction polys with
  | nil => intro idx mp; rfl
  | cons faces rest ih =>
    intro idx mp
    simp only [triangulateAll, List.enumFrom, List.flatMap_cons, ih]

/-- The output of `createPolySetFromNefPolyhedron3`, written as an
independent per-face-group contribution: group `i` contributes nothing when
its triangulation fails, and its triangles (tagged with
`markedPolygons.getD i`) when it succeeds. -/
theorem createPolySetFromNefPolyhedron3_eq (tess : Tess) (hfs : List Halffacet) :
    createPolySetFromNefPolyhedron3 tess hfs =
      (((buildPolygons hfs []).2.1.enum.flatMap fun p =>
        if (tess (buildPolygons hfs []).1 p.2).1 then []
        else (tess (buildPolygons hfs []).1 p.2).2.map fun t =>
          ((buildPolygons hfs []).2.2.getD p.1 false,
            triCoords (buildPolygons hfs []).1 t)), false) := by
  simp only [createPolySetFromNefPolyhedron3, triangulateAll_eq, List.map_flatMap]
  refine congrArg (fun l => (l, false)) (List.flatMap_congr ?_)
  intro p _
  by_cases h : (tess (buildPolygons hfs []).1 p.2).1 <;>
    simp [h, List.map_map, Function.comp]

/-- C5: the error flag returned by `createPolySetFromNefPolyhedron3` is never
set by per-face triangulation failures (it is `false` on every input, so it
can be `true` only if something upstream failed), and each face group whose
triangulation fails is dropped individually while the remaining groups still
contribute their triangles to the output. -/
theorem createPolySetFromNefPolyhedron3_face_drops (tess : Tess)
    (hfs : List Halffacet) :
    (createPolySetFromNefPolyhedron3 tess hfs).2 = false ∧
    (createPolySetFromNefPolyhedron3 tess hfs).1 =
      ((buildPolygons hfs []).2.1.enum.flatMap fun p =>
        if (tess (buildPolygons hfs []).1 p.2).1 then []
        else (tess (buildPolygons hfs []).1 p.2).2.map fun t =>
          ((buildPolygons hfs []).2.2.getD p.1 false,
            triCoords (buildPolygons hfs []).1 t)) := by
  rw [createPolySetFromNefPolyhedron3_eq]
  exact ⟨rfl, rfl⟩

theorem buildPolygons_eq_retainedGroups :
    ∀ (hfs : List Halffacet) (arr : List Q3),
      buildPolygons hfs arr =
        ((retainedGroups hfs arr).1,
          ((retainedGroups hfs arr).2.map fun g => g.2,
            (retainedGroups hfs arr).2.map fun g => !g.1.mark)) := by
  intro hfs
  induction hfs with
  | nil => intro arr; rfl
  | cons hf rest ih =>
    intro arr
    simp only [buildPolygons, retainedGroups, ih]
    by_cases h : (processHalffacet arr hf).2 = [] <;> simp [h]


theorem triangulateAll_groups (tess : Tess) (verts : List Q3) :
    ∀ (G : List (Halffacet × List (List ℕ))) (idx : ℕ) (mp : List Bool),
      (∀ k, k < G.length →
        mp.getD (idx + k) false = !(G.getD k (⟨true, true, []⟩, [])).1.mark) →
      triangulateAll tess verts (G.map fun g => g.2) idx mp =
        triangulateGroups tess verts G := by
  intro G
  induction G with
  | nil => intro idx mp _; rfl
  | cons g rest ih =>
    intro idx mp hmp
    have h0 : mp.getD idx false = !g.1.mark := by
      have := hmp 0 (Nat.succ_pos _)
      simpa using this
    simp only [List.map_cons, triangulateAll, triangulateGroups, h0]
    rw [ih (idx + 1) mp]
    intro k hk
    have := hmp (k + 1) (Nat.succ_lt_succ hk)
    simpa [Nat.add_assoc, Nat.add_comm 1 k] using this

/-- C2 (amended): each output triangle of `createPolySetFromNefPolyhedron3`
carries the *negation* of the mark of the half-facet from which it was
tessellated. -/
theorem createPolySetFromNefPolyhedron3_marks (tess : Tess)
    (hfs : List Halffacet) :
    (createPolySetFromNefPolyhedron3 tess hfs).1 =
      (triangulateGroups tess (retainedGroups hfs []).1
        (retainedGroups hfs []).2).map
        fun bt => (bt.1, triCoords (retainedGroups hfs []).1 bt.2) := by
  have hside : ∀ k, k < (retainedGroups hfs []).2.length →
      ((retainedGroups hfs []).2.map fun g => !g.1.mark).getD (0 + k) false =
        !((retainedGroups hfs []).2.getD k (⟨true, true, []⟩, [])).1.mark := by
    intro k hk
    rw [Nat.zero_add, List.getD_eq_getElem?_getD, List.getD_eq_getElem?_getD,
      List.getElem?_map, List.getElem?_eq_getElem hk]
    rfl
  calc (createPolySetFromNefPolyhedron3 tess hfs).1
      = (triangulateAll tess (buildPolygons hfs []).1 (buildPolygons hfs []).2.1 0
          (buildPolygons hfs []).2.2).map
          (fun bt => (bt.1, triCoords (buildPolygons hfs []).1 bt.2)) := rfl
    _ = (triangulateAll tess (retainedGroups hfs []).1
          ((retainedGroups hfs []).2.map fun g => g.2) 0
          ((retainedGroups hfs []).2.map fun g => !g.1.mark)).map
          (fun bt => (bt.1, triCoords (retainedGroups hfs []).1 bt.2)) := by
        rw [buildPolygons_eq_retainedGroups]
    _ = (triangulateGroups tess (retainedGroups hfs []).1
          (retainedGroups hfs []).2).map
          (fun bt => (bt.1, triCoords (retainedGroups hfs []).1 bt.2)) := by
        rw [triangulateAll_groups tess (retainedGroups hfs []).1
          (retainedGroups hfs []).2 0 _ hside]


/-- C2 (counterexample): the single output triangle produced from a
half-facet whose mark bit is `true` carries mark flag `false`, so the
triangle's mark flag does not equal the source half-facet's mark bit. -/
theorem createPolySetFromNefPolyhedron3_mark_flip :
    ((createPolySetFromNefPolyhedron3 tessC2 [hfC2]).1.map Prod.fst) = [false] ∧
    hfC2.mark = true := by
  constructor
  · decide
  · rfl

/-! ## Theorems: planarity retry and failure reporting (C4) -/

/-- C4: on a non-empty, non-convex input, if the first boundary construction
raises the distinguished planarity/precision failure, construction is retried
exactly once on the fully tessellated copy (the result is exactly the result
of `secondConstruction` on `ps_tri`, plus the retry log); if it raises any
other internal failure, the failure is reported (`CGAL error ...`) and the
result is empty.  Both cases return normally: no failure propagates. -/
theorem createNefPolyhedronFromPolySet_retry {PS Poly Nef Pt : Type}
    (W : NefWorld PS Poly Nef Pt) (ps : PS)
    (hne : W.isEmpty ps = false)
    (hnc : W.is_convex (W.tessellate_faces (W.quantize ps).1) = false) :
    (∀ e, firstConstruction W (W.quantize ps).1 = Except.error e →
      isPlaneError e = true →
      createNefPolyhedronFromPolySet W ps =
        (match secondConstruction W (W.tessellate_faces (W.quantize ps).1) with
          | Except.ok n2 => (n2, [msgRetry])
          | Except.error e2 => (none, [msgRetry, msgAltFailed e2]))) ∧
    (∀ e, firstConstruction W (W.quantize ps).1 = Except.error e →
      isPlaneError e = false →
      createNefPolyhedronFromPolySet W ps = (none, [msgCgalError e])) := by
  constructor <;> intro e he hp <;>
    simp [createNefPolyhedronFromPolySet, hne, hnc, he, hp]

theorem createNefPolyhedronFromPolySet_retry_witness :
    cWorld.isEmpty 1 = false ∧
    cWorld.is_convex (cWorld.tessellate_faces (cWorld.quantize 1).1) = false ∧
    firstConstruction cWorld (cWorld.quantize 1).1 =
      Except.error "ss_circle.has_on(sp)" ∧
    isPlaneError "ss_circle.has_on(sp)" = true ∧
    createNefPolyhedronFromPolySet cWorld 1 =
      (none, [msgRetry, msgAltFailed "ss_circle.has_on(sp)"]) := by
  refine ⟨rfl, rfl, rfl, by decide, ?_⟩
  have h := (createNefPolyhedronFromPolySet_retry cWorld 1 rfl rfl).1
    "ss_circle.has_on(sp)" rfl (by decide)
  exact h.trans rfl

/-! ## Theorems: convexity classifier (C3) -/

theorem getD_mem_of_lt {α : Type} (l : List α) (d : α) (i : ℕ) (h : i < l.length) :
    l.getD i d ∈ l := by
  rw [List.getD_eq_getElem?_getD, List.getElem?_eq_getElem h]
  exact List.getElem_mem h

theorem faceEdges_mem_of_lt (f : List Q3) (j : ℕ) (hj : j < f.length) :
    (f.getD j q0, f.getD ((j + 1) % f.length) q0) ∈ faceEdges f := by
  unfold faceEdges
  exact List.mem_map.mpr ⟨j, List.mem_range.mpr hj, rfl⟩

theorem faceEdges_mem_inv {f : List Q3} {e : Edge} (h : e ∈ faceEdges f) :
    ∃ j, j < f.length ∧
      e = (f.getD j q0, f.getD ((j + 1) % f.length) q0) := by
  unfold faceEdges at h
  obtain ⟨j, hj, he⟩ := List.mem_map.mp h
  exact ⟨j, List.mem_range.mp hj, he.symm⟩

theorem insertEdges_preserve (i : ℕ) :
    ∀ (es : List Edge) (m m' : EdgeMap), insertEdges i m es = some m' →
      ∀ e v, emLookup m e = some v → emLookup m' e = some v := by
  intro es
  induction es with
  | nil =>
    intro m m' h e v hv
    simp only [insertEdges, Option.some_inj] at h
    rw [← h]
    exact hv
  | cons e0 es ih =>
    intro m m' h e v hv
    by_cases h0 : (emLookup m e0).isSome
    · simp [insertEdges, h0] at h
    · rw [insertEdges, if_neg h0] at h
      refine ih _ _ h e v ?_
      have he0 : e0 ≠ e := by
        rintro rfl
        rw [hv] at h0
        exact h0 rfl
      rw [emLookup, if_neg he0]
      exact hv

theorem insertEdges_lookup_mem (i : ℕ) :
    ∀ (es : List Edge) (m m' : EdgeMap), insertEdges i m es = some m' →
      ∀ e ∈ es, emLookup m' e = some i := by
  intro es
  induction es with
  | nil => intro m m' _ e he; cases he
  | cons e0 es ih =>
    intro m m' h e he
    by_cases h0 : (emLookup m e0).isSome
    · simp [insertEdges, h0] at h
    · rw [insertEdges, if_neg h0] at h
      rcases List.mem_cons.mp he with rfl | hes
      · refine insertEdges_preserve i _ _ _ h e i ?_
        rw [emLookup, if_pos rfl]
      · exact ih _ _ h e hes

theorem insertEdges_lookup_inv (i : ℕ) :
    ∀ (es : List Edge) (m m' : EdgeMap), insertEdges i m es = some m' →
      ∀ e v, emLookup m' e = some v → (e ∈ es ∧ v = i) ∨ emLookup m e = some v := by
  intro es
  induction es with
  | nil =>
    intro m m' h e v hv
    simp only [insertEdges, Option.some_inj] at h
    rw [← h] at hv
    exact Or.inr hv
  | cons e0 es ih =>
    intro m m' h e v hv
    by_cases h0 : (emLookup m e0).isSome
    · simp [insertEdges, h0] at h
    · rw [insertEdges, if_neg h0] at h
      rcases ih _ _ h e v hv with ⟨hes, hvi⟩ | hm
      · exact Or.inl ⟨List.mem_cons_of_mem e0 hes, hvi⟩
      · by_cases he0 : e0 = e
        · rw [emLookup, if_pos he0] at hm
          exact Or.inl ⟨he0 ▸ List.mem_cons_self e0 es, (Option.some_inj.mp hm).symm⟩
        · rw [emLookup, if_neg he0] at hm
          exact Or.inr hm

theorem buildMap_preserve :
    ∀ (fs : List (List Q3)) (i0 : ℕ) (m0 m : EdgeMap), buildMap fs i0 m0 = some m →
      ∀ e v, emLookup m0 e = some v → emLookup m e = some v := by
  intro fs
  induction fs with
  | nil =>
    intro i0 m0 m h e v hv
    simp only [buildMap, Option.some_inj] at h
    rw [← h]
    exact hv
  | cons f rest ih =>
    intro i0 m0 m h e v hv
    by_cases h3 : 3 ≤ f.length
    · rw [buildMap, if_pos h3] at h
      cases hie : insertEdges i0 m0 (faceEdges f) with
      | none => rw [hie] at h; cases h
      | some m1 =>
        rw [hie] at h
        exact ih _ _ _ h e v (insertEdges_preserve i0 _ _ _ hie e v hv)
    · rw [buildMap, if_neg h3] at h
      exact ih _ _ _ h e v hv

theorem buildMap_lookup_mem :
    ∀ (fs : List (List Q3)) (i0 : ℕ) (m0 m : EdgeMap), buildMap fs i0 m0 = some m →
      ∀ k, k < fs.length → 3 ≤ (fs.getD k []).length →
      ∀ e ∈ faceEdges (fs.getD k []), emLookup m e = some (i0 + k) := by
  intro fs
  induction fs with
  | nil => intro i0 m0 m _ k hk; cases hk
  | cons f rest ih =>
    intro i0 m0 m h k hk h3 e he
    by_cases hf3 : 3 ≤ f.length
    · rw [buildMap, if_pos hf3] at h
      cases hie : insertEdges i0 m0 (faceEdges f) with
      | none => rw [hie] at h; cases h
      | some m1 =>
        rw [hie] at h
        cases k with
        | zero =>
          rw [Nat.add_zero]
          exact buildMap_preserve _ _ _ _ h e i0
            (insertEdges_lookup_mem i0 _ _ _ hie e he)
        | succ k' =>
          have := ih (i0 + 1) m1 m h k' (Nat.lt_of_succ_lt_succ hk) h3 e he
          rw [show i0 + (k' + 1) = i0 + 1 + k' by omega]
          exact this
    · rw [buildMap, if_neg hf3] at h
      cases k with
      | zero => exact absurd h3 hf3
      | succ k' =>
        have := ih (i0 + 1) m0 m h k' (Nat.lt_of_succ_lt_succ hk) h3 e he
        rw [show i0 + (k' + 1) = i0 + 1 + k' by omega]
        exact this

theorem buildMap_lookup_inv :
    ∀ (fs : List (List Q3)) (i0 : ℕ) (m0 m : EdgeMap), buildMap fs i0 m0 = some m →
      ∀ e v, emLookup m e = some v →
        emLookup m0 e = some v ∨
        ∃ k, k < fs.length ∧ 3 ≤ (fs.getD k []).length ∧
          e ∈ faceEdges (fs.getD k []) ∧ v = i0 + k := by
  intro fs
  induction fs with
  | nil =>
    intro i0 m0 m h e v hv
    simp only [buildMap, Option.some_inj] at h
    rw [← h] at hv
    exact Or.inl hv
  | cons f rest ih =>
    intro i0 m0 m h e v hv
    by_cases hf3 : 3 ≤ f.length
    · rw [buildMap, if_pos hf3] at h
      cases hie : insertEdges i0 m0 (faceEdges f) with
      | none => rw [hie] at h; cases h
      | some m1 =>
        rw [hie] at h
        rcases ih _ _ _ h e v hv with hm1 | ⟨k, hk, hk3, hke, hkv⟩
        · rcases insertEdges_lookup_inv i0 _ _ _ hie e v hm1 with ⟨hef, hvi⟩ | hm0
          · exact Or.inr ⟨0, Nat.succ_pos _, hf3, hef, by rw [hvi, Nat.add_zero]⟩
          · exact Or.inl hm0
        · exact Or.inr ⟨k + 1, Nat.succ_lt_succ hk, hk3, hke, by omega⟩
    · rw [buildMap, if_neg hf3] at h
      rcases ih _ _ _ h e v hv with hm0 | ⟨k, hk, hk3, hke, hkv⟩
      · exact Or.inl hm0
      · exact Or.inr ⟨k + 1, Nat.succ_lt_succ hk, hk3, hke, by omega⟩

theorem facetPlanes_getD (polys : List (List Q3)) (g : ℕ) (hg : g < polys.length) :
    (facetPlanes polys).getD g planeDefault = facetPlane (polys.getD g []) := by
  unfold facetPlanes
  rw [List.getD_eq_getElem?_getD, List.getElem?_map, List.getD_eq_getElem?_getD,
    List.getElem?_eq_getElem hg]
  rfl

theorem convexChecks_edge (G : FPModel) (m : EdgeMap) (planes : List Plane3)
    (polys : List (List Q3)) (hcc : convexChecks G m planes polys = true)
    (i : ℕ) (hi : i < polys.length) (h3 : ¬ (polys.getD i []).length < 3)
    (j : ℕ) (hj : j < (polys.getD i []).length) :
    edgeOK G m planes (polys.getD i []) i j = true := by
  unfold convexChecks at hcc
  rw [List.all_eq_true] at hcc
  have hf := hcc i (List.mem_range.mpr hi)
  unfold faceOK at hf
  rw [if_neg h3, List.all_eq_true] at hf
  exact hf j (List.mem_range.mpr hj)

theorem is_approximately_convex_true_parts {G : FPModel} {polys : List (List Q3)}
    (h : is_approximately_convex G polys = some true) :
    ∃ m, buildMap polys 0 [] = some m ∧
      convexChecks G m (facetPlanes polys) polys = true ∧
      bfsPhase polys m = some true := by
  unfold is_approximately_convex at h
  cases hbm : buildMap polys 0 [] with
  | none => rw [hbm] at h; cases h
  | some m =>
    rw [hbm] at h
    change (if convexChecks G m (facetPlanes polys) polys = true then bfsPhase polys m
      else some false) = some true at h
    by_cases hcc : convexChecks G m (facetPlanes polys) polys = true
    · rw [if_pos hcc] at h
      exact ⟨m, rfl, hcc, h⟩
    · rw [if_neg hcc] at h
      exact Bool.noConfusion (Option.some_inj.mp h)

theorem visitEdges_inv {polys : List (List Q3)} {m : EdgeMap}
    (hmap : ∀ e v, emLookup m e = some v →
      v < polys.length ∧ e ∈ faceEdges (polys.getD v []))
    {f : ℕ} {face : List Q3} (hface : polys[f]? = some face)
    (hreach : Reaches polys f) :
    ∀ (js explored queue explored2 queue2 : List ℕ),
      (∀ i ∈ js, i < face.length) →
      visitEdges m face js explored queue = some (explored2, queue2) →
      explored.Nodup → (∀ x ∈ queue, x ∈ explored) →
      (∀ x ∈ explored, Reaches polys x ∧ (x < polys.length ∨ x = 0)) →
      explored ≠ [] →
      explored2.Nodup ∧ (∀ x ∈ queue2, x ∈ explored2) ∧
        (∀ x ∈ explored2, Reaches polys x ∧ (x < polys.length ∨ x = 0)) ∧
        explored2 ≠ [] := by
  have hgetD : polys.getD f [] = face := by
    rw [List.getD_eq_getElem?_getD, hface]
    rfl
  intro js
  induction js with
  | nil =>
    intro explored queue explored2 queue2 _ h hn hq hr hne
    simp only [visitEdges, Option.some_inj] at h
    obtain ⟨h1, h2⟩ := Prod.mk.injEq .. ▸ h
    exact h1 ▸ h2 ▸ ⟨hn, hq, hr, hne⟩
  | cons i rest ih =>
    intro explored queue explored2 queue2 hjs h hn hq hr hne
    have hi : i < face.length := hjs i (List.mem_cons_self i rest)
    cases hlk : emLookup m (face.getD ((i + 1) % face.length) q0, face.getD i q0) with
    | none =>
      rw [visitEdges] at h
      rw [hlk] at h
      exact Option.noConfusion h
    | some g =>
      simp only [visitEdges, hlk] at h
      have hgn := hmap _ _ hlk
      have hreachg : Reaches polys g := by
        refine Reaches.step hreach (a := face.getD i q0)
          (b := face.getD ((i + 1) % face.length) q0) ?_ hgn.2
        rw [hgetD]
        exact faceEdges_mem_of_lt face i hi
      by_cases hg : g ∈ explored
      · rw [if_pos hg] at h
        exact ih explored queue explored2 queue2
          (fun x hx => hjs x (List.mem_cons_of_mem i hx)) h hn hq hr hne
      · rw [if_neg hg] at h
        refine ih (g :: explored) (queue ++ [g]) explored2 queue2
          (fun x hx => hjs x (List.mem_cons_of_mem i hx)) h
          (List.nodup_cons.mpr ⟨hg, hn⟩) ?_ ?_ (by simp)
        · intro x hx
          rcases List.mem_append.mp hx with hx | hx
          · exact List.mem_cons_of_mem g (hq x hx)
          · rw [List.mem_singleton.mp hx]
            exact List.mem_cons_self g explored
        · intro x hx
          rcases List.mem_cons.mp hx with rfl | hx
          · exact ⟨hreachg, Or.inl hgn.1⟩
          · exact hr x hx

theorem bfsLoop_reaches {polys : List (List Q3)} {m : EdgeMap}
    (hmap : ∀ e v, emLookup m e = some v →
      v < polys.length ∧ e ∈ faceEdges (polys.getD v [])) :
    ∀ (fuel : ℕ) (queue explored : List ℕ),
      explored.Nodup → (∀ x ∈ queue, x ∈ explored) →
      (∀ x ∈ explored, Reaches polys x ∧ (x < polys.length ∨ x = 0)) →
      explored ≠ [] →
      bfsLoop polys m fuel queue explored = some true →
      ∀ i, i < polys.length → Reaches polys i := by
  intro fuel
  induction fuel with
  | zero => intro queue explored _ _ _ _ h; cases h
  | succ n ih =>
    intro queue explored hn hq hr hne h i hi
    cases queue with
    | nil =>
      simp only [bfsLoop, Option.some_inj] at h
      have hlen : explored.length = polys.length := of_decide_eq_true h
      have hpos : 0 < polys.length := by
        rw [← hlen]
        exact List.length_pos.mpr hne
      have hlt : ∀ x ∈ explored, x < polys.length := by
        intro x hx
        rcases (hr x hx).2 with h' | h'
        · exact h'
        · rw [h']
          exact hpos
      have hcard : explored.toFinset.card = polys.length := by
        rw [List.toFinset_card_of_nodup hn, hlen]
      have hsub : explored.toFinset ⊆ Finset.range polys.length := fun x hx =>
        Finset.mem_range.mpr (hlt x (List.mem_toFinset.mp hx))
      have heq : explored.toFinset = Finset.range polys.length :=
        Finset.eq_of_subset_of_card_le hsub (by rw [hcard, Finset.card_range])
      have hmem : i ∈ explored := by
        have := heq ▸ Finset.mem_range.mpr hi
        exact List.mem_toFinset.mp this
      exact (hr i hmem).1
    | cons f rest =>
      cases hface : polys[f]? with
      | none =>
        simp only [bfsLoop, hface] at h
        exact Option.noConfusion h
      | some face =>
        cases hv : visitEdges m face (List.range face.length) explored rest with
        | none =>
          simp only [bfsLoop, hface, hv] at h
          exact Bool.noConfusion (Option.some_inj.mp h)
        | some pr =>
          obtain ⟨explored2, queue2⟩ := pr
          simp only [bfsLoop, hface, hv] at h
          have hfe : f ∈ explored := hq f (List.mem_cons_self f rest)
          obtain ⟨hn2, hq2, hr2, hne2⟩ := visitEdges_inv hmap hface (hr f hfe).1
            (List.range face.length) explored rest explored2 queue2
            (fun j hj => List.mem_range.mp hj) hv hn
            (fun x hx => hq x (List.mem_cons_of_mem f hx)) hr hne
          exact ih queue2 explored2 hn2 hq2 hr2 hne2 h i hi

/-- C3: on a fully tessellated mesh (every face a triangle), whenever
`is_approximately_convex` returns `true`: (1) no directed edge occurs in more
than one face loop; (2) the reverse of every directed edge of every face
occurs in some face; (3) for every edge of face `i` whose reverse belongs to
neighbour `g`, if the vertex two steps ahead on face `i` lies strictly on the
positive side of `g`'s plane then the cosine expression of the angle between
the two face normals reaches the threshold; and (4) every face is reached
from face 0 by reverse-edge links. -/
theorem is_approximately_convex_only_if (G : FPModel) (polys : List (List Q3))
    (htri : ∀ f ∈ polys, f.length = 3)
    (htrue : is_approximately_convex G polys = some true) :
    (∀ (e : Edge) (i j : ℕ), i < polys.length → j < polys.length →
      e ∈ faceEdges (polys.getD i []) → e ∈ faceEdges (polys.getD j []) → i = j) ∧
    (∀ i, i < polys.length → ∀ a b, (a, b) ∈ faceEdges (polys.getD i []) →
      ∃ g, g < polys.length ∧ (b, a) ∈ faceEdges (polys.getD g [])) ∧
    (∀ i g, i < polys.length → g < polys.length →
      ∀ j, j < (polys.getD i []).length →
        ((polys.getD i []).getD ((j + 1) % (polys.getD i []).length) q0,
          (polys.getD i []).getD j q0) ∈ faceEdges (polys.getD g []) →
        hasOnPositiveSide (facetPlane (polys.getD g []))
          ((polys.getD i []).getD ((j + 2) % (polys.getD i []).length) q0) = true →
        G.cosThreshold ≤ cosAngle G (orthVec (facetPlane (polys.getD g [])))
          (orthVec (facetPlane (polys.getD i [])))) ∧
    (∀ i, i < polys.length → Reaches polys i) := by
  obtain ⟨m, hbm, hcc, hbfs⟩ := is_approximately_convex_true_parts htrue
  have hlen3 : ∀ i, i < polys.length → (polys.getD i []).length = 3 := fun i hi =>
    htri _ (getD_mem_of_lt polys [] i hi)
  have hge3 : ∀ i, i < polys.length → 3 ≤ (polys.getD i []).length := fun i hi =>
    le_of_eq (hlen3 i hi).symm
  have hmap : ∀ e v, emLookup m e = some v →
      v < polys.length ∧ e ∈ faceEdges (polys.getD v []) := by
    intro e v hv
    rcases buildMap_lookup_inv polys 0 [] m hbm e v hv with h0 | ⟨k, hk, _, hke, hkv⟩
    · cases h0
    · rw [hkv, Nat.zero_add]
      exact ⟨hk, hke⟩
  refine ⟨?_, ?_, ?_, ?_⟩
  · intro e i j hi hj hei hej
    have h1 := buildMap_lookup_mem polys 0 [] m hbm i hi (hge3 i hi) e hei
    have h2 := buildMap_lookup_mem polys 0 [] m hbm j hj (hge3 j hj) e hej
    rw [h1] at h2
    have := Option.some_inj.mp h2
    omega
  · intro i hi a b hab
    obtain ⟨j, hj, hje⟩ := faceEdges_mem_inv hab
    have hok := convexChecks_edge G m (facetPlanes polys) polys hcc i hi
      (by rw [hlen3 i hi]; omega) j hj
    cases hlk : emLookup m ((polys.getD i []).getD ((j + 1) % (polys.getD i []).length) q0,
        (polys.getD i []).getD j q0) with
    | none =>
      simp only [edgeOK, hlk] at hok
      exact Bool.noConfusion hok
    | some g =>
      simp only [edgeOK, hlk] at hok
      obtain ⟨hg, hge⟩ := hmap _ _ hlk
      refine ⟨g, hg, ?_⟩
      obtain ⟨rfl, rfl⟩ : a = (polys.getD i []).getD j q0 ∧
          b = (polys.getD i []).getD ((j + 1) % (polys.getD i []).length) q0 := by
        have := Prod.mk.injEq .. ▸ hje
        exact ⟨this.1, this.2⟩
      exact hge
  · intro i g hi hg j hj hrev hpos
    have hok := convexChecks_edge G m (facetPlanes polys) polys hcc i hi
      (by rw [hlen3 i hi]; omega) j hj
    have hlk : emLookup m ((polys.getD i []).getD ((j + 1) % (polys.getD i []).length) q0,
        (polys.getD i []).getD j q0) = some g := by
      have := buildMap_lookup_mem polys 0 [] m hbm g hg (hge3 g hg) _ hrev
      rwa [Nat.zero_add] at this
    simp only [edgeOK, hlk] at hok
    rw [facetPlanes_getD polys g hg, if_pos hpos, facetPlanes_getD polys i hi] at hok
    exact of_decide_eq_true hok
  · intro i hi
    refine bfsLoop_reaches hmap (polys.length + 1) [0] [0] (List.nodup_singleton 0)
      (fun x hx => hx) ?_ (by simp) hbfs i hi
    intro x hx
    rw [List.mem_singleton.mp hx]
    exact ⟨Reaches.zero, Or.inr rfl⟩

theorem is_approximately_convex_only_if_witness :
    (∀ f ∈ doubledTriangle, f.length = 3) ∧
    is_approximately_convex cG0 doubledTriangle = some true ∧
    Reaches doubledTriangle 1 :=
  ⟨by decide, by decide,
    (is_approximately_convex_only_if cG0 doubledTriangle (by decide)
      (by decide)).2.2.2 1 (by decide)⟩

/-! ## Theorems: empty-mesh BFS access (C10) -/

/-- C10: the BFS of `is_approximately_convex` seeds its queue with face 0
unconditionally, so on a mesh with zero polygons the access `ps.polygons[0]`
is out of bounds and the guarded embedding hits its error branch (`none`). -/
theorem is_approximately_convex_empty_oob (G : FPModel) :
    is_approximately_convex G [] = none := rfl

end CGALUtils
